import Mathlib

/-!
Verification of the expression-scanner (variable dependency extractor) and the
chain-spec editor session of the langchain-testbench app.

The reducer functions, the regular expressions they are driven by, and the
editor-session logic are translated from `src/app/src/components/Designer.tsx`
and `src/app/src/contexts/ChainSpecContext.tsx`.  The generic scanner
(`FormatReducer`), the chain-spec data model (`model/specs.ts`), the tree
mutation engine (`model/spec_control.ts`) and `deepEquals` (`util/sets.ts`)
are not part of the provided sources; they are modelled from the
specification document, as indicated on each definition.
-/

/-! ### Character classes of the template regular expressions -/

/-- Character range test on code points (models a regex character range such
as `A-Z`). -/
def charBetween (lo hi c : Char) : Bool :=
  lo.toNat ≤ c.toNat && c.toNat ≤ hi.toNat

/-- Class `[^:\x7b\x7d]` used for directive arguments in
`extendedFormatterRegex` (Designer.tsx line 163). -/
def isParamChar (c : Char) : Bool :=
  !(c == ':') && !(c == '{') && !(c == '}')

/-- Class `[^\x7b\x7d]` used for the plain-reference alternative of
`extendedFormatterRegex`. -/
def isPlainChar (c : Char) : Bool :=
  !(c == '{') && !(c == '}')

/-- Class `[_A-Za-z0-9]` of `parseFormatExpression` (Designer.tsx line 165)
and of the identifier continuation in the `expr` branch. -/
def isWordChar (c : Char) : Bool :=
  c == '_' || charBetween 'A' 'Z' c || charBetween 'a' 'z' c || charBetween '0' '9' c

/-- Class `[_A-Za-z]` starting an identifier in the `expr` branch regex
`[_A-Za-z][_A-Za-z0-9]*` (Designer.tsx line 196). -/
def isIdentStartChar (c : Char) : Bool :=
  c == '_' || charBetween 'A' 'Z' c || charBetween 'a' 'z' c

/-- Greedy run of a character class: a regex `C*` (or `C+` once checked
nonempty) splits the input into the maximal prefix of class members and the
rest. -/
def charSpan (p : Char → Bool) (l : List Char) : List Char × List Char :=
  (l.takeWhile p, l.dropWhile p)

/-! ### parseFormatExpression (Designer.tsx lines 164-167) -/

/-- Translation of `parseFormatExpression`: the leading `[_A-Za-z0-9]+` run
(possibly empty, per the `|| ''` fallback) is the variable, the remainder is
the modifier tail, copied through unevaluated. -/
def parseFormatExpression (expr : String) : String × String :=
  let r := charSpan isWordChar expr.toList
  (String.mk r.1, String.mk r.2)

/-! ### The extended formatter regular expression (Designer.tsx line 163)

The regex
`\x7b(join|parse_json|let|expr|int|float):([^:]+)(:([^:]+))?\x7d|(\x7b([^]*)\x7d)`
(character classes abbreviated) is modelled by a deterministic matcher: at a
given position the directive alternative is tried first, then the plain
alternative; both alternatives are deterministic because the argument
character classes exclude every character that can follow them, so regex
backtracking can never produce a different split. -/

/-- Tokens recognised by `extendedFormatterRegex`: either a directive form
with its two captured arguments (the second optional), or the plain
bracketed form with its captured content. -/
inductive FmtToken where
  | dir (d : String) (arg1 : String) (arg2 : Option String)
  | plain (content : String)
deriving Repr, DecidableEq

/-- Directive words in the alternation order of `extendedFormatterRegex`. -/
def directiveNames : List String :=
  ["join", "parse_json", "let", "expr", "int", "float"]

/-- Matches the directive word and its following colon at the start of the
content after the opening brace. -/
def matchDirectiveWord (s : List Char) : Option (String × List Char) :=
  directiveNames.findSome? fun d =>
    let dl := d.toList ++ [':']
    if dl.isPrefixOf s then some (d, s.drop dl.length) else none

/-- First alternative of `extendedFormatterRegex`, applied to the input just
after the opening brace: directive word, `:`, nonempty `arg1` of
`isParamChar`s, optional `:arg2`, closing brace.  Returns the captures and
the input after the closing brace. -/
def matchDirectiveAlt (s : List Char) : Option (String × String × Option String × List Char) :=
  match matchDirectiveWord s with
  | none => none
  | some (d, r0) =>
    let s1 := charSpan isParamChar r0
    if s1.1.isEmpty then none
    else
      match s1.2 with
      | '}' :: rest => some (d, String.mk s1.1, none, rest)
      | ':' :: r2 =>
        let s2 := charSpan isParamChar r2
        if s2.1.isEmpty then none
        else
          match s2.2 with
          | '}' :: rest => some (d, String.mk s1.1, some (String.mk s2.1), rest)
          | _ => none
      | _ => none

/-- Second alternative of `extendedFormatterRegex`, applied just after the
opening brace: any (possibly empty) run of non-brace characters followed by
the closing brace. -/
def matchPlainAlt (s : List Char) : Option (String × List Char) :=
  let r := charSpan isPlainChar s
  match r.2 with
  | '}' :: rest => some (String.mk r.1, rest)
  | _ => none

/-- One match attempt of `extendedFormatterRegex` at the current position:
an opening brace followed by the first alternative that succeeds. -/
def extendedFormatterMatch : List Char → Option (FmtToken × List Char)
  | '{' :: t =>
    match matchDirectiveAlt t with
    | some (d, a1, a2, rest) => some (.dir d a1 a2, rest)
    | none =>
      match matchPlainAlt t with
      | some (content, rest) => some (.plain content, rest)
      | none => none
  | _ => none

/-! ### Set-like accumulation (JS `Set` in insertion order) -/

/-- JS `Set.prototype.add`: append the element unless already present;
iteration order is insertion order, so the set is a duplicate-free list. -/
def setAdd (s : List String) (x : String) : List String :=
  if x ∈ s then s else s ++ [x]

/-- Translation of `condAdd` (Designer.tsx lines 168-170): add `item` to
`set1` unless `set2` already has it. -/
def condAdd (set1 set2 : List String) (item : String) : List String :=
  if item ∈ set2 then set1 else setAdd set1 item

/-! ### Identifier replacement inside the `expr` branch -/

/-- Identifiers of `[_A-Za-z][_A-Za-z0-9]*` occurring in a string, in match
order, as produced by the `replace` call of the `expr` branch (Designer.tsx
line 196).  The first argument holds the reversed identifier currently being
read. -/
def exprIdentsAux : Option (List Char) → List Char → List String
  | none, [] => []
  | some w, [] => [String.mk w.reverse]
  | none, c :: t =>
    if isIdentStartChar c then exprIdentsAux (some [c]) t else exprIdentsAux none t
  | some w, c :: t =>
    if isWordChar c then exprIdentsAux (some (c :: w)) t
    else String.mk w.reverse :: exprIdentsAux none t

/-- Identifiers of the free-form `expr` argument in match order. -/
def exprIdents (s : String) : List String :=
  exprIdentsAux none s.toList

/-- Rendered form of the free-form `expr` argument: each identifier wrapped
in a `var-name` span, all other characters copied through (the string
returned by the `replace` call of the `expr` branch). -/
def exprFormatAux : Option (List Char) → List Char → String
  | none, [] => ""
  | some w, [] => "<span class=\"var-name\">" ++ String.mk w.reverse ++ "</span>"
  | none, c :: t =>
    if isIdentStartChar c then exprFormatAux (some [c]) t
    else String.mk [c] ++ exprFormatAux none t
  | some w, c :: t =>
    if isWordChar c then exprFormatAux (some (c :: w)) t
    else "<span class=\"var-name\">" ++ String.mk w.reverse ++ "</span>" ++ String.mk [c] ++ exprFormatAux none t

/-! ### extendedFormatterReduceFunc (Designer.tsx lines 172-212) -/

/-- JS template-literal interpolation of a possibly `undefined` capture:
group 4 (`exprParam2`) interpolates as the string `undefined` when absent. -/
def optParamText : Option String → String
  | some s => s
  | none => "undefined"

/-- Translation of `extendedFormatterReduceFunc`.  State is the pair
(external inputs, internal names), both JS sets in insertion order.  The
result pairs the new state with the rendered replacement token.  Branch
order follows the source: `parse_json|let|int|float`, then `join`, then
`expr`, then the plain alternative, then the `ERROR` fallback. -/
def extendedFormatterReduceFunc (st : List String × List String) (tok : FmtToken) :
    (List String × List String) × String :=
  let inputs := st.1
  let internal := st.2
  match tok with
  | .dir d a1 a2 =>
    if d == "parse_json" || d == "let" || d == "int" || d == "float" then
      let p := parseFormatExpression a1
      ((condAdd inputs internal p.1, setAdd internal (a2.getD "data")),
        "<span class=\"expr\">\x7b" ++ d ++ ":<span class=\"var-name\">" ++ p.1 ++ "</span>"
          ++ p.2 ++ ":" ++ optParamText a2 ++ "\x7d</span>")
    else if d == "join" then
      let p := parseFormatExpression a1
      ((condAdd inputs internal p.1, setAdd (setAdd internal "item") "index"),
        "<span class=\"expr\">\x7b" ++ d ++ ":<span class=\"var-name\">" ++ p.1 ++ "</span>"
          ++ p.2 ++ ":" ++ optParamText a2 ++ "\x7d</span>")
    else if d == "expr" then
      let newInputs := (exprIdents a1).foldl (fun acc v => condAdd acc internal v) inputs
      ((newInputs, setAdd internal (a2.getD "data")),
        "<span class=\"expr\">\x7b" ++ d ++ ":" ++ exprFormatAux none a1.toList ++ ":"
          ++ optParamText a2 ++ "\x7d</span>")
    else
      ((inputs, internal), "<span class=\"error\">ERROR</span>")
  | .plain content =>
    let p := parseFormatExpression content
    ((condAdd inputs internal p.1, internal),
      "<span class=\"expr\">\x7b<span class=\"var-name\">" ++ p.1 ++ "</span>" ++ p.2 ++ "\x7d</span>")

/-! ### The scanner -/

/-- Modelled from the spec: the Expression Scanner (`FormatReducer` in
`src/app/src/util/FormatReducer.ts`, which is not among the provided source
files) performs a single left-to-right pass, replaces every matched token by
the reducer's rendered token, threads the state sequentially between
matches, and passes unmatched text through unchanged.  The `fuel` argument
only bounds the recursion; every caller passes the input length, which
suffices because every match consumes at least one character. -/
def formatReduceScan : Nat → (List String × List String) → List Char →
    (List String × List String) × String
  | _, st, [] => (st, "")
  | 0, st, s => (st, String.mk s)
  | fuel + 1, st, c :: t =>
    match extendedFormatterMatch (c :: t) with
    | some (tok, rest) =>
      let r1 := extendedFormatterReduceFunc st tok
      let r2 := formatReduceScan fuel r1.1 rest
      (r2.1, r1.2 ++ r2.2)
    | none =>
      let r := formatReduceScan fuel st t
      (r.1, String.mk [c] ++ r.2)

/-- Run of the variable dependency extractor over one template string,
starting from empty input and internal sets (the initial-state constructor
at Designer.tsx line 232). -/
def runExtendedFormatter (s : String) : (List String × List String) × String :=
  formatReduceScan s.toList.length ([], []) s.toList

/-- Finalize callback of the Reformat designer (Designer.tsx line 234): the
accumulated external-input set, in insertion order, becomes `input_keys`. -/
def extendedInputKeys (s : String) : List String :=
  (runExtendedFormatter s).1.1

/-- Internal-name set accumulated over one template string. -/
def extendedInternalNames (s : String) : List String :=
  (runExtendedFormatter s).1.2

/-- Rendered (highlightable) form of one template string. -/
def extendedRendered (s : String) : String :=
  (runExtendedFormatter s).2

/-! ### The LLM prompt scanner (Designer.tsx lines 30-38)

The LLM designer uses a simpler `FormatReducer` over the regex
`\x7b(.*?)\x7d`: lazily matched content stops at the first closing brace and
may not contain a line terminator; the whole captured content is added to
the variable set. -/

/-- Class matched by the lazy `.` of the LLM prompt regex: any character
other than the terminating brace or a line terminator. -/
def isLLMContentChar (c : Char) : Bool :=
  !(c == '}') && !(c == '\n') && !(c == '\r')

/-- One match attempt of the LLM prompt regex `\x7b(.*?)\x7d` at the current
position. -/
def llmPromptMatch : List Char → Option (String × List Char)
  | '{' :: t =>
    let r := charSpan isLLMContentChar t
    match r.2 with
    | '}' :: rest => some (String.mk r.1, rest)
    | _ => none
  | _ => none

/-- Scanner instantiation of the LLM designer: every matched brace content is
added, whole, to the variable set (Designer.tsx line 34), and the token is
rendered with the full content in the `var-name` span. -/
def llmPromptScan : Nat → List String → List Char → List String × String
  | _, vars, [] => (vars, "")
  | 0, vars, s => (vars, String.mk s)
  | fuel + 1, vars, c :: t =>
    match llmPromptMatch (c :: t) with
    | some (content, rest) =>
      let r := llmPromptScan fuel (setAdd vars content) rest
      (r.1, "<span class=\"expr\">\x7b<span class=\"var-name\">" ++ content ++ "</span>\x7d</span>" ++ r.2)
    | none =>
      let r := llmPromptScan fuel vars t
      (r.1, String.mk [c] ++ r.2)

/-- Variable list derived from an LLM prompt string, which the LLM designer
writes back as the node's `input_keys`. -/
def llmInputKeys (s : String) : List String :=
  (llmPromptScan s.toList.length [] s.toList).1

/-! ### The API designer variable regex (Designer.tsx lines 302-309) -/

/-- One match attempt of the API designer regex `\x7b([a-zA-Z0-9_]+)\x7d`. -/
def apiVarMatch : List Char → Option (String × List Char)
  | '{' :: t =>
    let r := charSpan isWordChar t
    if r.1.isEmpty then none
    else
      match r.2 with
      | '}' :: rest => some (String.mk r.1, rest)
      | _ => none
  | _ => none

/-- Collects the captured variable names of the API regex into the set. -/
def apiVarScan : Nat → List String → List Char → List String
  | _, vars, [] => vars
  | 0, vars, _ => vars
  | fuel + 1, vars, c :: t =>
    match apiVarMatch (c :: t) with
    | some (v, rest) => apiVarScan fuel (setAdd vars v) rest
    | none => apiVarScan fuel vars t

/-- Variable collection of the API designer update effect: the url, method,
headers text and (if present) body are scanned in order into one set. -/
def apiVars (url method headersText : String) (body : Option String) : List String :=
  let v1 := apiVarScan url.toList.length [] url.toList
  let v2 := apiVarScan method.toList.length v1 method.toList
  let v3 := apiVarScan headersText.toList.length v2 headersText.toList
  match body with
  | some b => apiVarScan b.toList.length v3 b.toList
  | none => v3

/-! ### Chain Spec Tree -/

/-- Modelled from the spec: the ChainSpec tagged union of section 3
(`src/app/src/model/specs.ts` is not among the provided source files).  Five
variants, each carrying its `chain_id`; Sequential holds an ordered child
list, Case holds label-keyed child branches plus an optional default. -/
inductive ChainSpec where
  | llm_spec (chain_id : Nat) (prompt llm_key output_key : String) (input_keys : List String)
  | sequential_spec (chain_id : Nat) (chains : List ChainSpec)
  | case_spec (chain_id : Nat) (categorization_key : String)
      (cases : List (String × ChainSpec)) (default_case : Option ChainSpec)
  | reformat_spec (chain_id : Nat) (formatters : List (String × String)) (input_keys : List String)
  | api_spec (chain_id : Nat) (url method : String) (headers : List (String × String))
      (body : Option String) (output_key : String) (input_keys : List String)
deriving Repr

/-- Identity of a chain spec node. -/
def ChainSpec.chain_id : ChainSpec → Nat
  | .llm_spec i _ _ _ _ => i
  | .sequential_spec i _ => i
  | .case_spec i _ _ _ => i
  | .reformat_spec i _ _ => i
  | .api_spec i _ _ _ _ _ _ => i

/-! ### Tree membership of an id -/

mutual

/-- Modelled from the spec: whether some node of the tree carries the given
`chain_id` (the domain of `find` of section 4.4; `model/spec_control.ts` is
not among the provided source files).  A node matches on its own id, then
Sequential children, Case branches, and the default case are searched. -/
def containsId (t : ChainSpec) (id : Nat) : Bool :=
  t.chain_id == id ||
    match t with
    | .sequential_spec _ cs => containsIdList cs id
    | .case_spec _ _ cs dc =>
      containsIdCases cs id ||
        (match dc with
         | some d => containsId d id
         | none => false)
    | _ => false

/-- Id search over an ordered child list. -/
def containsIdList (ts : List ChainSpec) (id : Nat) : Bool :=
  match ts with
  | [] => false
  | c :: cs => containsId c id || containsIdList cs id

/-- Id search over labelled case branches. -/
def containsIdCases (ts : List (String × ChainSpec)) (id : Nat) : Bool :=
  match ts with
  | [] => false
  | (_, c) :: cs => containsId c id || containsIdCases cs id

end

/-! ### replace (updateChainSpec of model/spec_control.ts) -/

mutual

/-- Modelled from the spec: `replace(tree, id, replacementSubtree)` of
section 4.4 (`model/spec_control.ts` is not among the provided source
files).  Depth-first search in `find` order; the first node whose
`chain_id` equals `id` is substituted whole, ancestors are rebuilt
immutably; when no node matches, the result is `found = false` with the
tree unchanged. -/
def replaceSpec (t : ChainSpec) (id : Nat) (n : ChainSpec) : Bool × ChainSpec :=
  if t.chain_id == id then (true, n)
  else
    match t with
    | .sequential_spec i cs =>
      let r := replaceSpecList cs id n
      if r.1 then (true, .sequential_spec i r.2) else (false, .sequential_spec i cs)
    | .case_spec i ck cs dc =>
      let r := replaceSpecCases cs id n
      if r.1 then (true, .case_spec i ck r.2 dc)
      else
        match dc with
        | some d =>
          let rd := replaceSpec d id n
          if rd.1 then (true, .case_spec i ck cs (some rd.2))
          else (false, .case_spec i ck cs (some d))
        | none => (false, .case_spec i ck cs none)
    | other => (false, other)

/-- Replacement over an ordered child list: the first child containing the
id is rebuilt, children after it are untouched. -/
def replaceSpecList (ts : List ChainSpec) (id : Nat) (n : ChainSpec) : Bool × List ChainSpec :=
  match ts with
  | [] => (false, [])
  | c :: cs =>
    let r := replaceSpec c id n
    if r.1 then (true, r.2 :: cs)
    else
      let r2 := replaceSpecList cs id n
      if r2.1 then (true, c :: r2.2) else (false, c :: cs)

/-- Replacement over labelled case branches, labels preserved. -/
def replaceSpecCases (ts : List (String × ChainSpec)) (id : Nat) (n : ChainSpec) :
    Bool × List (String × ChainSpec) :=
  match ts with
  | [] => (false, [])
  | (k, c) :: cs =>
    let r := replaceSpec c id n
    if r.1 then (true, (k, r.2) :: cs)
    else
      let r2 := replaceSpecCases cs id n
      if r2.1 then (true, (k, c) :: r2.2) else (false, (k, c) :: cs)

end

/-- Result shape of `updateChainSpec` as consumed by the session
(`result.found`, `result.chainSpec`). -/
structure UpdateResult where
  found : Bool
  chainSpec : Option ChainSpec

/-- Modelled from the spec: `updateChainSpec` of `model/spec_control.ts`
(not among the provided source files), the replace operation invoked by the
session with the replacement's own `chain_id` as the target id; a null tree
yields `found = false`. -/
def updateChainSpec (tree : Option ChainSpec) (spec : ChainSpec) : UpdateResult :=
  match tree with
  | none => ⟨false, none⟩
  | some t =>
    let r := replaceSpec t spec.chain_id spec
    ⟨r.1, some r.2⟩

/-! ### insert (insertChainSpec of model/spec_control.ts) -/

/-- Modelled from the spec: the variant-appropriate default node body
allocated by the insert operation for each of the five wire-format type
tags; an unknown tag yields no node. -/
def defaultSpec (type : String) (id : Nat) : Option ChainSpec :=
  if type == "llm_spec" then some (.llm_spec id "" "" "" [])
  else if type == "sequential_spec" then some (.sequential_spec id [])
  else if type == "case_spec" then some (.case_spec id "" [] none)
  else if type == "reformat_spec" then some (.reformat_spec id [] [])
  else if type == "api_spec" then some (.api_spec id "" "" [] none "" [])
  else none

/-- Splice into an ordered list at an index clamped to `[0, length]`. -/
def spliceAt (ts : List ChainSpec) (n : ChainSpec) (index : Nat) : List ChainSpec :=
  ts.take index ++ [n] ++ ts.drop index

/-- Splice a new labelled case branch at a clamped position, with a
generated placeholder label. -/
def spliceCaseAt (ts : List (String × ChainSpec)) (n : ChainSpec) (index : Nat) :
    List (String × ChainSpec) :=
  ts.take index ++ [("case_" ++ toString index, n)] ++ ts.drop index

mutual

/-- Modelled from the spec: the recursive part of `insert` of section 4.4
(`model/spec_control.ts` is not among the provided source files).  The
container node with `chain_id = parentId` receives the new node at the
requested (clamped) position; a Sequential splices into `chains`, a Case
gains a new labelled branch; a leaf node never accepts an insertion, and
`none` signals an unresolvable or non-container parent. -/
def insertIntoTree (t : ChainSpec) (n : ChainSpec) (parentId index : Nat) : Option ChainSpec :=
  match t with
  | .sequential_spec i cs =>
    if i == parentId then some (.sequential_spec i (spliceAt cs n index))
    else
      match insertIntoList cs n parentId index with
      | some cs' => some (.sequential_spec i cs')
      | none => none
  | .case_spec i ck cs dc =>
    if i == parentId then some (.case_spec i ck (spliceCaseAt cs n index) dc)
    else
      match insertIntoCases cs n parentId index with
      | some cs' => some (.case_spec i ck cs' dc)
      | none =>
        match dc with
        | some d =>
          match insertIntoTree d n parentId index with
          | some d' => some (.case_spec i ck cs (some d'))
          | none => none
        | none => none
  | _ => none

/-- Insertion search over an ordered child list. -/
def insertIntoList (ts : List ChainSpec) (n : ChainSpec) (parentId index : Nat) :
    Option (List ChainSpec) :=
  match ts with
  | [] => none
  | c :: cs =>
    match insertIntoTree c n parentId index with
    | some c' => some (c' :: cs)
    | none =>
      match insertIntoList cs n parentId index with
      | some cs' => some (c :: cs')
      | none => none

/-- Insertion search over labelled case branches. -/
def insertIntoCases (ts : List (String × ChainSpec)) (n : ChainSpec) (parentId index : Nat) :
    Option (List (String × ChainSpec)) :=
  match ts with
  | [] => none
  | (k, c) :: cs =>
    match insertIntoTree c n parentId index with
    | some c' => some ((k, c') :: cs)
    | none =>
      match insertIntoCases cs n parentId index with
      | some cs' => some ((k, c) :: cs')
      | none => none

end

/-- Modelled from the spec: `insertChainSpec` of `model/spec_control.ts`
(imported by the session as `insertGeneratedChainSpec`; the file is not
among the provided source files).  Inserting into an empty tree ignores
`parentId` and `index` and returns a fresh default node of the requested
type as the new root; otherwise the node is inserted below the container
with `chain_id = parentId`, and an unresolvable or non-container parent is
a fatal `InvalidInsertTarget` error. -/
def insertGeneratedChainSpec (tree : Option ChainSpec) (nextChainId : Nat) (type : String)
    (chainId index : Nat) : Except String ChainSpec :=
  match defaultSpec type nextChainId with
  | none => .error ("Unknown chain type " ++ type)
  | some node =>
    match tree with
    | none => .ok node
    | some t =>
      match insertIntoTree t node chainId index with
      | some t' => .ok t'
      | none => .error "InvalidInsertTarget"

/-! ### structural equality (deepEquals of util/sets.ts) -/

/-- First branch of a label-keyed case map, as JS object property access
would find it. -/
def lookupCase (k : String) (ts : List (String × ChainSpec)) : Option ChainSpec :=
  match ts.find? (fun kv => kv.1 == k) with
  | some kv => some kv.2
  | none => none

mutual

/-- Modelled from the spec: `structuralEquals` of section 4.4 (realised by
`deepEquals` of `src/app/src/util/sets.ts`, which is not among the provided
source files).  Variant tags must match; Sequential children compare as
ordered lists, Case branches compare as label-keyed maps (order
independent) plus the default case, scalar fields compare by value. -/
def structuralEquals (a b : ChainSpec) : Bool :=
  match a, b with
  | .llm_spec i1 p1 l1 o1 k1, .llm_spec i2 p2 l2 o2 k2 =>
    i1 == i2 && p1 == p2 && l1 == l2 && o1 == o2 && k1 == k2
  | .sequential_spec i1 cs1, .sequential_spec i2 cs2 =>
    i1 == i2 && seqChildrenEqual cs1 cs2
  | .case_spec i1 ck1 cs1 dc1, .case_spec i2 ck2 cs2 dc2 =>
    i1 == i2 && ck1 == ck2 && caseBranchesIncluded cs1 cs2
      && cs2.all (fun kv => (lookupCase kv.1 cs1).isSome)
      && defaultCaseEqual dc1 dc2
  | .reformat_spec i1 f1 k1, .reformat_spec i2 f2 k2 =>
    i1 == i2 && f1 == f2 && k1 == k2
  | .api_spec i1 u1 m1 h1 b1 o1 k1, .api_spec i2 u2 m2 h2 b2 o2 k2 =>
    i1 == i2 && u1 == u2 && m1 == m2 && h1 == h2 && b1 == b2 && o1 == o2 && k1 == k2
  | _, _ => false

/-- Ordered comparison of Sequential children (order matters). -/
def seqChildrenEqual (as bs : List ChainSpec) : Bool :=
  match as, bs with
  | [], [] => true
  | a :: as', b :: bs' => structuralEquals a b && seqChildrenEqual as' bs'
  | _, _ => false

/-- Map inclusion of case branches: every labelled branch of the first list
has a structurally equal branch of the same label in the second. -/
def caseBranchesIncluded (as bs : List (String × ChainSpec)) : Bool :=
  match as with
  | [] => true
  | (k, v) :: rest =>
    (match lookupCase k bs with
     | some w => structuralEquals v w
     | none => false) && caseBranchesIncluded rest bs

/-- Comparison of the optional default case. -/
def defaultCaseEqual (a b : Option ChainSpec) : Bool :=
  match a, b with
  | none, none => true
  | some a', some b' => structuralEquals a' b'
  | _, _ => false

end

/-- Modelled from the spec: `deepEquals` of `src/app/src/util/sets.ts` (not
among the provided source files) applied to the session's nullable trees:
two absent trees are equal, an absent and a present tree are not, and two
present trees compare by `structuralEquals`. -/
def deepEquals (a b : Option ChainSpec) : Bool :=
  match a, b with
  | none, none => true
  | some a', some b' => structuralEquals a' b'
  | _, _ => false

/-! ### Spec Editor Session (ChainSpecContext.tsx) -/

/-- State held by `ChainSpecProvider` (ChainSpecContext.tsx lines 47-52):
the committed tree (`chainSpec`), the working tree (`dirtyChainSpec`) and
the id allocator (`nextChainId`). -/
structure SessionState where
  chainSpec : Option ChainSpec
  dirtyChainSpec : Option ChainSpec
  nextChainId : Nat
deriving Repr

/-- Translation of `setChains` (ChainSpecContext.tsx lines 64-67): writes
the given tree to both the committed and the working slot. -/
def setChains (s : SessionState) (spec : ChainSpec) : SessionState :=
  { s with chainSpec := some spec, dirtyChainSpec := some spec }

/-- Translation of `insertChainSpec` (ChainSpecContext.tsx lines 54-58): a
new tree is produced from the working tree by the generated insert, then
`setChains` stores it and the id allocator advances; a failure of the
insert leaves the state untouched. -/
def insertChainSpec (s : SessionState) (type : String) (chainId index : Nat) :
    Except String SessionState :=
  match insertGeneratedChainSpec s.dirtyChainSpec s.nextChainId type chainId index with
  | .error e => .error e
  | .ok newSpec => .ok { setChains s newSpec with nextChainId := s.nextChainId + 1 }

/-- Translation of `updateDirtyChainSpec` (ChainSpecContext.tsx lines
76-82): the replace runs against the working tree; a missing id throws
before any state is written, otherwise only the working slot is updated. -/
def updateDirtyChainSpec (s : SessionState) (spec : ChainSpec) : Except String SessionState :=
  let result := updateChainSpec s.dirtyChainSpec spec
  if result.found then .ok { s with dirtyChainSpec := result.chainSpec }
  else .error ("Could not find chain spec with id " ++ toString spec.chain_id ++ " to update")

/-- Translation of `readyToInteract` (ChainSpecContext.tsx lines 84-86):
`!!chainSpec && deepEquals(chainSpec, dirtyChainSpec)`. -/
def readyToInteract (s : SessionState) : Bool :=
  s.chainSpec.isSome && deepEquals s.chainSpec s.dirtyChainSpec

/-! ### API designer (Designer.tsx lines 275-353) -/

/-- Modelled from the spec: the API spec node fields of section 3
(`model/specs.ts` is not among the provided source files); headers are a
string-to-string mapping. -/
structure APISpec where
  chain_id : Nat
  url : String
  method : String
  headers : List (String × String)
  body : Option String
  output_key : String
  input_keys : List String
deriving Repr, DecidableEq

/-- Local editor state of `APISpecDesigner` (Designer.tsx lines 278-283):
`headers` holds the raw headers text exactly as typed. -/
structure APIDesignerState where
  url : String
  method : String
  headers : String
  headersError : Bool
  body : Option String
  outputKey : String
deriving Repr, DecidableEq

/-- Translation of `tryParseHeaders` (Designer.tsx lines 292-300),
parameterised by the JSON parser (an external collaborator): a parse
success clears the error flag and yields the parsed value; a parse failure
is caught, sets the error flag and falls back to the last successfully
parsed value `spec.headers`.  The pair is (headers value, error flag). -/
def tryParseHeaders (parseJson : String → Option (List (String × String)))
    (specHeaders : List (String × String)) (str : String) :
    List (String × String) × Bool :=
  match parseJson str with
  | some h => (h, false)
  | none => (specHeaders, true)

/-- Translation of the update effect of `APISpecDesigner` (Designer.tsx
lines 302-320): collect the template variables of url, method, raw headers
text and body, then build the updated spec; the headers field takes the
`tryParseHeaders` result and the editor keeps its raw text, only the error
flag changing.  The function is total: a parse failure never escapes. -/
def apiSpecUpdate (parseJson : String → Option (List (String × String)))
    (spec : APISpec) (st : APIDesignerState) : APISpec × APIDesignerState :=
  let vars := apiVars st.url st.method st.headers st.body
  let parsed := tryParseHeaders parseJson spec.headers st.headers
  ({ spec with
      url := st.url
      method := st.method
      input_keys := vars
      headers := parsed.1
      body := st.body
      output_key := st.outputKey },
   { st with headersError := parsed.2 })

/-! ### Helper lemmas -/

/-- A greedy class run over `l ++ c :: r` with every element of `l` in the
class and `c` outside it splits exactly at `c`. -/
theorem charSpan_all_append (p : Char → Bool) (l : List Char) (c : Char) (r : List Char)
    (hl : l.all p = true) (hc : p c = false) :
    charSpan p (l ++ c :: r) = (l, c :: r) := by
  induction l with
  | nil => simp [charSpan, List.takeWhile_cons, List.dropWhile_cons, hc]
  | cons a as ih =>
    simp only [List.all_cons, Bool.and_eq_true] at hl
    have has := ih hl.2
    simp only [charSpan, Prod.mk.injEq] at has
    simp [charSpan, List.takeWhile_cons, List.dropWhile_cons, hl.1, has.1, has.2]

/-! ### Claim C2 -/

/-- Claim C2 counterexample: for the string `{expr:a:b}{let:b:c}` the
extractor does NOT include `b` in `input_keys`; the result is exactly
`["a"]`. -/
theorem expr_then_let_excludes_b_counterexample :
    extendedInputKeys "\x7bexpr:a:b\x7d\x7blet:b:c\x7d" = ["a"]
    ∧ "b" ∉ extendedInputKeys "\x7bexpr:a:b\x7d\x7blet:b:c\x7d" := by
  decide

/-- Claim C2 (amended): for `{expr:a:b}{let:b:c}` the name `b` is excluded
from `input_keys` (the `expr` directive binds `b` as an internal name
before the `let` token references it) and `a` is included, so
`input_keys = ["a"]` with internal names `["b", "c"]`; the ordering
sensitivity instead shows when a reference precedes its binder, as in
`{b}{let:a:b}` where `b` IS included. -/
theorem expr_then_let_input_keys :
    extendedInputKeys "\x7bexpr:a:b\x7d\x7blet:b:c\x7d" = ["a"]
    ∧ extendedInternalNames "\x7bexpr:a:b\x7d\x7blet:b:c\x7d" = ["b", "c"]
    ∧ extendedInputKeys "\x7bb\x7d\x7blet:a:b\x7d" = ["b", "a"] := by
  decide

/-! ### Claim C4 -/

/-- Claim C4 counterexample: after `{join:x:out}` the produced name `out`
is NOT an internal name, so the following plain reference `{out}` is
counted as an external input: `input_keys = ["x", "out"]`. -/
theorem join_arg2_not_internal_counterexample :
    extendedInputKeys "\x7bjoin:x:out\x7d\x7bout\x7d" = ["x", "out"]
    ∧ "out" ∈ extendedInputKeys "\x7bjoin:x:out\x7d\x7bout\x7d"
    ∧ "out" ∉ extendedInternalNames "\x7bjoin:x:out\x7d\x7bout\x7d" := by
  decide

/-- Claim C4 (amended): the join branch adds the fixed names `item` and
`index` to internal-names but never its second argument, whatever that
argument is; consequently in `{join:x:out}{out}` the name `out` IS part of
the computed `input_keys`. -/
theorem join_internal_names :
    (∀ (inputs internal : List String) (a1 : String) (a2 : Option String),
      (extendedFormatterReduceFunc (inputs, internal) (.dir "join" a1 a2)).1.2
        = setAdd (setAdd internal "item") "index")
    ∧ extendedInputKeys "\x7bjoin:x:out\x7d\x7bout\x7d" = ["x", "out"]
    ∧ extendedInternalNames "\x7bjoin:x:out\x7d\x7bout\x7d" = ["item", "index"] := by
  refine ⟨?_, by decide, by decide⟩
  intro inputs internal a1 a2
  simp [extendedFormatterReduceFunc]

/-! ### Claim C6 -/

/-- Claim C6: scanning `{join:items:out}{item}-{index}` yields
`input_keys = ["items"]`; the join adds the fixed internal names `item` and
`index`, so the later plain references are not external inputs. -/
theorem join_items_template_input_keys :
    extendedInputKeys "\x7bjoin:items:out\x7d\x7bitem\x7d-\x7bindex\x7d" = ["items"]
    ∧ extendedInternalNames "\x7bjoin:items:out\x7d\x7bitem\x7d-\x7bindex\x7d"
        = ["item", "index"] := by
  decide

/-! ### Claim C10 -/

/-- Claim C10: for `parse_json`, `let`, `int`, `float` and `expr` the second
directive argument is optional and the bound internal name defaults to
`data`; a `join` without second argument still binds `item` and `index` and
binds no produced name; `{let:x}` is matched by the directive alternative,
not the error or plain path. -/
theorem directive_arg2_optional_defaults :
    (runExtendedFormatter "\x7bparse_json:x\x7d").1 = (["x"], ["data"])
    ∧ (runExtendedFormatter "\x7blet:x\x7d").1 = (["x"], ["data"])
    ∧ (runExtendedFormatter "\x7bint:x\x7d").1 = (["x"], ["data"])
    ∧ (runExtendedFormatter "\x7bfloat:x\x7d").1 = (["x"], ["data"])
    ∧ (runExtendedFormatter "\x7bexpr:x\x7d").1 = (["x"], ["data"])
    ∧ (runExtendedFormatter "\x7bjoin:x\x7d").1 = (["x"], ["item", "index"])
    ∧ extendedFormatterMatch "\x7blet:x\x7d".toList
        = some (FmtToken.dir "let" "x" none, []) := by
  decide

/-! ### Claim C3 -/

/-- Claim C3 counterexample: the colon-containing token `{foo:bar}` matches
no directive, yet it is classified as a PLAIN token, not an error token:
the rendering is the plain-reference span (not the error marker) and the
accumulated state changes, `foo` entering the external inputs. -/
theorem colon_token_plain_counterexample :
    runExtendedFormatter "\x7bfoo:bar\x7d"
      = ((["foo"], []),
         "<span class=\"expr\">\x7b<span class=\"var-name\">foo</span>:bar\x7d</span>")
    ∧ extendedRendered "\x7bfoo:bar\x7d" ≠ "<span class=\"error\">ERROR</span>"
    ∧ extendedInputKeys "\x7bfoo:bar\x7d" ≠ [] := by
  decide

/-- Claim C3 (amended): a bracketed token whose brace-free content contains
a colon but fails the directive alternative is matched by the PLAIN
alternative, not classified as an error token: the scanner consumes it as a
plain token, its leading identifier is conditionally added to the external
inputs and the internal-name set is unchanged. -/
theorem unrecognized_colon_token_is_plain (fuel : Nat) (inputs internal : List String)
    (content : List Char)
    (hall : content.all isPlainChar = true)
    (_hcolon : ':' ∈ content)
    (hdir : matchDirectiveAlt (content ++ ['}']) = none) :
    extendedFormatterMatch ('{' :: (content ++ ['}']))
      = some (.plain (String.mk content), [])
    ∧ (formatReduceScan (fuel + 1) (inputs, internal) ('{' :: (content ++ ['}']))).1
        = (condAdd inputs internal (parseFormatExpression (String.mk content)).1, internal) := by
  have hspan := charSpan_all_append isPlainChar content '}' [] hall (by decide)
  have hmatch : extendedFormatterMatch ('{' :: (content ++ ['}']))
      = some (.plain (String.mk content), []) := by
    simp [extendedFormatterMatch, hdir, matchPlainAlt, hspan]
  refine ⟨hmatch, ?_⟩
  simp only [formatReduceScan, List.append_eq]
  rw [hmatch]
  simp [extendedFormatterReduceFunc, formatReduceScan]

/-- Witness for the amended claim C3 at the concrete token `{foo:bar}`. -/
theorem unrecognized_colon_token_is_plain_witness :
    extendedFormatterMatch ('{' :: ("foo:bar".toList ++ ['}']))
      = some (.plain "foo:bar", [])
    ∧ (formatReduceScan 1 ([], []) ('{' :: ("foo:bar".toList ++ ['}']))).1 = (["foo"], []) := by
  have h := unrecognized_colon_token_is_plain 0 [] [] "foo:bar".toList
    (by decide) (by decide) (by decide)
  exact ⟨h.1, h.2⟩

/-! ### Claim C5 -/

/-- Claim C5 counterexample: the LLM prompt designer does not reduce a
token to its leading identifier; the entire brace content, modifier tail
included, becomes the variable: `{name.upper()}` yields the input key
`name.upper()`, not `name`. -/
theorem llm_prompt_full_content_counterexample :
    llmInputKeys "\x7bname.upper()\x7d" = ["name.upper()"]
    ∧ llmInputKeys "\x7bname.upper()\x7d" ≠ ["name"] := by
  decide

/-- Claim C5 (amended): in the EXTENDED formatter a plain-reference token
adds at most its leading identifier to the external inputs — the modifier
tail never becomes part of an input key — and leaves internal names
unchanged; the LLM prompt designer however adds the entire brace content,
tail included, as witnessed by `{name.upper()}`. -/
theorem plain_reference_leading_identifier :
    (∀ (inputs internal : List String) (content : String) (x : String),
      x ∈ (extendedFormatterReduceFunc (inputs, internal) (.plain content)).1.1 →
      x ∈ inputs ∨ x = (parseFormatExpression content).1)
    ∧ (∀ (inputs internal : List String) (content : String),
      (extendedFormatterReduceFunc (inputs, internal) (.plain content)).1.2 = internal)
    ∧ llmInputKeys "\x7bname.upper()\x7d" = ["name.upper()"] := by
  refine ⟨?_, ?_, by decide⟩
  · intro inputs internal content x hx
    simp only [extendedFormatterReduceFunc, condAdd, setAdd] at hx
    split at hx
    · exact Or.inl hx
    · split at hx
      · exact Or.inl hx
      · rcases List.mem_append.mp hx with h | h
        · exact Or.inl h
        · exact Or.inr (List.mem_singleton.mp h)
  · intro inputs internal content
    simp [extendedFormatterReduceFunc]

/-- Witness for the amended claim C5 at the concrete token content
`ab.c()` with accumulated inputs `["q"]`. -/
theorem plain_reference_leading_identifier_witness :
    "ab" ∈ (["q"] : List String) ∨ "ab" = (parseFormatExpression "ab.c()").1 :=
  plain_reference_leading_identifier.1 ["q"] [] "ab.c()" "ab" (by decide)

/-! ### Claim C7 -/

/-- Claim C7 counterexample: in the session state where no tree has been
loaded, committed and working tree are both absent and therefore deeply
equal, yet the clean/ready flag is false. -/
theorem ready_no_tree_counterexample :
    readyToInteract ⟨none, none, 0⟩ = false
    ∧ deepEquals none none = true := by
  decide

/-- Claim C7 (amended): the clean/ready flag equals structural equality of
committed and working tree ONLY when a committed tree exists; with no
committed tree the flag is false regardless, so in the no-tree state the
session reports not-ready although the two (absent) trees are equal. -/
theorem readyToInteract_characterisation :
    ∀ (t w : ChainSpec) (dw : Option ChainSpec) (k : Nat),
      readyToInteract ⟨some t, some w, k⟩ = structuralEquals t w
      ∧ readyToInteract ⟨none, dw, k⟩ = false
      ∧ readyToInteract ⟨some t, none, k⟩ = false := by
  intro t w dw k
  refine ⟨?_, ?_, ?_⟩ <;> simp [readyToInteract, deepEquals]

/-! ### Claim C1 -/

/-- Claim C1 counterexample: inserting into the empty session writes the
new tree to BOTH slots: the committed tree changes from `none` to the new
node and the session is immediately clean (ready), not dirty. -/
theorem insert_updates_committed_counterexample :
    insertChainSpec ⟨none, none, 0⟩ "llm_spec" 0 0
      = .ok ⟨some (.llm_spec 0 "" "" "" []), some (.llm_spec 0 "" "" "" []), 1⟩
    ∧ (⟨none, none, 0⟩ : SessionState).chainSpec ≠ some (ChainSpec.llm_spec 0 "" "" "" [])
    ∧ readyToInteract ⟨some (.llm_spec 0 "" "" "" []), some (.llm_spec 0 "" "" "" []), 1⟩
        = true := by
  refine ⟨rfl, by simp, ?_⟩
  simp [readyToInteract, deepEquals, structuralEquals]

/-- Claim C1 (amended): `replace` (updateDirtyChainSpec) operates only on
the working tree, leaving the committed tree and the allocator unchanged;
`insert` however routes through `setChains` and writes the new tree to the
committed AND the working slot, so a successful insert leaves the session
clean rather than dirty. -/
theorem insert_sets_both_replace_only_working :
    ∀ (s : SessionState) (type : String) (pid idx : Nat) (spec : ChainSpec),
      (∀ r, insertChainSpec s type pid idx = .ok r →
        r.chainSpec = r.dirtyChainSpec ∧ r.nextChainId = s.nextChainId + 1)
      ∧ (∀ r, updateDirtyChainSpec s spec = .ok r →
        r.chainSpec = s.chainSpec ∧ r.nextChainId = s.nextChainId) := by
  intro s type pid idx spec
  constructor
  · intro r h
    unfold insertChainSpec at h
    cases hg : insertGeneratedChainSpec s.dirtyChainSpec s.nextChainId type pid idx with
    | error e => rw [hg] at h; exact absurd h (by simp)
    | ok n =>
      rw [hg] at h
      injection h with h'
      subst h'
      simp [setChains]
  · intro r h
    unfold updateDirtyChainSpec at h
    by_cases hf : (updateChainSpec s.dirtyChainSpec spec).found
    · simp only [hf, if_true] at h
      injection h with h'
      subst h'
      simp
    · simp only [hf, if_false, Bool.false_eq_true] at h
      exact absurd h (by simp)

/-- Witness for the amended claim C1: a concrete successful insert into the
empty session and a concrete successful replace on a one-node session. -/
theorem insert_sets_both_replace_only_working_witness :
    ((⟨some (.llm_spec 0 "" "" "" []), some (.llm_spec 0 "" "" "" []), 1⟩ : SessionState).chainSpec
        = (⟨some (.llm_spec 0 "" "" "" []), some (.llm_spec 0 "" "" "" []), 1⟩ : SessionState).dirtyChainSpec
      ∧ (⟨some (.llm_spec 0 "" "" "" []), some (.llm_spec 0 "" "" "" []), 1⟩ : SessionState).nextChainId
        = (⟨none, none, 0⟩ : SessionState).nextChainId + 1)
    ∧ ((⟨none, some (.llm_spec 0 "b" "" "" []), 7⟩ : SessionState).chainSpec
        = (⟨none, some (.llm_spec 0 "a" "" "" []), 7⟩ : SessionState).chainSpec
      ∧ (⟨none, some (.llm_spec 0 "b" "" "" []), 7⟩ : SessionState).nextChainId
        = (⟨none, some (.llm_spec 0 "a" "" "" []), 7⟩ : SessionState).nextChainId) :=
  ⟨(insert_sets_both_replace_only_working ⟨none, none, 0⟩ "llm_spec" 0 0
      (.llm_spec 0 "b" "" "" [])).1
      ⟨some (.llm_spec 0 "" "" "" []), some (.llm_spec 0 "" "" "" []), 1⟩ rfl,
   (insert_sets_both_replace_only_working ⟨none, some (.llm_spec 0 "a" "" "" []), 7⟩
      "llm_spec" 0 0 (.llm_spec 0 "b" "" "" [])).2
      ⟨none, some (.llm_spec 0 "b" "" "" []), 7⟩ rfl⟩

/-! ### Claim C8 -/

mutual

/-- A tree containing no node with the target id is returned unchanged by
`replaceSpec`, with the found flag false. -/
theorem replaceSpec_not_found (t : ChainSpec) (id : Nat) (n : ChainSpec)
    (h : containsId t id = false) : replaceSpec t id n = (false, t) := by
  cases t with
  | llm_spec i p l o k =>
    simp [containsId, ChainSpec.chain_id] at h
    simp [replaceSpec, ChainSpec.chain_id, h]
  | sequential_spec i cs =>
    simp [containsId, ChainSpec.chain_id] at h
    have hl := replaceSpecList_not_found cs id n h.2
    simp [replaceSpec, ChainSpec.chain_id, h.1, hl]
  | case_spec i ck cs dc =>
    cases dc with
    | none =>
      simp [containsId, ChainSpec.chain_id] at h
      have hc := replaceSpecCases_not_found cs id n h.2
      simp [replaceSpec, ChainSpec.chain_id, h.1, hc]
    | some d =>
      simp [containsId, ChainSpec.chain_id] at h
      obtain ⟨h1, h2, h3⟩ := h
      have hc := replaceSpecCases_not_found cs id n h2
      have hd := replaceSpec_not_found d id n h3
      simp [replaceSpec, ChainSpec.chain_id, h1, hc, hd]
  | reformat_spec i f k =>
    simp [containsId, ChainSpec.chain_id] at h
    simp [replaceSpec, ChainSpec.chain_id, h]
  | api_spec i u m hd b o k =>
    simp [containsId, ChainSpec.chain_id] at h
    simp [replaceSpec, ChainSpec.chain_id, h]

/-- List version of `replaceSpec_not_found`. -/
theorem replaceSpecList_not_found (ts : List ChainSpec) (id : Nat) (n : ChainSpec)
    (h : containsIdList ts id = false) : replaceSpecList ts id n = (false, ts) := by
  cases ts with
  | nil => simp [replaceSpecList]
  | cons c cs =>
    simp [containsIdList] at h
    have ih1 := replaceSpec_not_found c id n h.1
    have ih2 := replaceSpecList_not_found cs id n h.2
    simp [replaceSpecList, ih1, ih2]

/-- Case-branch version of `replaceSpec_not_found`. -/
theorem replaceSpecCases_not_found (ts : List (String × ChainSpec)) (id : Nat) (n : ChainSpec)
    (h : containsIdCases ts id = false) : replaceSpecCases ts id n = (false, ts) := by
  cases ts with
  | nil => simp [replaceSpecCases]
  | cons kc cs =>
    cases kc with
    | mk k c =>
      simp [containsIdCases] at h
      have ih1 := replaceSpec_not_found c id n h.1
      have ih2 := replaceSpecCases_not_found cs id n h.2
      simp [replaceSpecCases, ih1, ih2]

end

/-- Claim C8: replacing by an id absent from the working tree signals the
fatal not-found error to the caller (the session throws instead of
updating), and the underlying replace reports `found = false` with the
working tree itself unchanged. -/
theorem replace_absent_id_fatal :
    ∀ (s : SessionState) (t : ChainSpec) (spec : ChainSpec),
      s.dirtyChainSpec = some t →
      containsId t spec.chain_id = false →
      updateDirtyChainSpec s spec =
        .error ("Could not find chain spec with id " ++ toString spec.chain_id ++ " to update")
      ∧ updateChainSpec s.dirtyChainSpec spec = ⟨false, some t⟩ := by
  intro s t spec hd h
  have hr := replaceSpec_not_found t spec.chain_id spec h
  constructor
  · unfold updateDirtyChainSpec
    rw [hd]
    simp [updateChainSpec, hr]
  · rw [hd]
    simp [updateChainSpec, hr]

/-- Witness for claim C8: a one-node working tree with id 1 and a
replacement node with id 5. -/
theorem replace_absent_id_fatal_witness :
    updateDirtyChainSpec ⟨none, some (.llm_spec 1 "" "" "" []), 2⟩ (.llm_spec 5 "" "" "" [])
      = .error "Could not find chain spec with id 5 to update"
    ∧ updateChainSpec (some (.llm_spec 1 "" "" "" [])) (.llm_spec 5 "" "" "" [])
      = ⟨false, some (.llm_spec 1 "" "" "" [])⟩ :=
  replace_absent_id_fatal ⟨none, some (.llm_spec 1 "" "" "" []), 2⟩
    (.llm_spec 1 "" "" "" []) (.llm_spec 5 "" "" "" []) rfl (by decide)

/-! ### Claim C9 -/

/-- Claim C9: when the raw headers text fails to parse, the API designer
update is locally recoverable: the updated node keeps the last successfully
parsed headers value, the error flag is raised, the editor state is
untouched except for that flag (in particular the raw unparsed text is
retained), and the update itself is a total function, so no exception
propagates. -/
theorem headers_parse_failure_recoverable :
    ∀ (parseJson : String → Option (List (String × String)))
      (spec : APISpec) (st : APIDesignerState),
      parseJson st.headers = none →
      (apiSpecUpdate parseJson spec st).1.headers = spec.headers
      ∧ (apiSpecUpdate parseJson spec st).2.headersError = true
      ∧ (apiSpecUpdate parseJson spec st).2 = { st with headersError := true } := by
  intro parseJson spec st h
  refine ⟨?_, ?_, ?_⟩ <;> simp [apiSpecUpdate, tryParseHeaders, h]

/-- Witness for claim C9: a parser failing on the concrete raw text
`\x7bbad`, with a last-good headers value that must survive. -/
theorem headers_parse_failure_recoverable_witness :
    (apiSpecUpdate (fun _ => none)
        ⟨3, "http://e/\x7bq\x7d", "GET", [("a", "b")], none, "out", []⟩
        ⟨"u", "m", "\x7bbad", false, none, "o"⟩).1.headers = [("a", "b")]
    ∧ (apiSpecUpdate (fun _ => none)
        ⟨3, "http://e/\x7bq\x7d", "GET", [("a", "b")], none, "out", []⟩
        ⟨"u", "m", "\x7bbad", false, none, "o"⟩).2.headersError = true
    ∧ (apiSpecUpdate (fun _ => none)
        ⟨3, "http://e/\x7bq\x7d", "GET", [("a", "b")], none, "out", []⟩
        ⟨"u", "m", "\x7bbad", false, none, "o"⟩).2
      = ⟨"u", "m", "\x7bbad", true, none, "o"⟩ :=
  headers_parse_failure_recoverable (fun _ => none)
    ⟨3, "http://e/\x7bq\x7d", "GET", [("a", "b")], none, "out", []⟩
    ⟨"u", "m", "\x7bbad", false, none, "o"⟩ rfl
